import Mathlib

/-!
Shallow embedding of the comparator dispatch and tree-traversal engine of the
`dir-content-diff` repository (files `dir_content_diff/core.py`,
`dir_content_diff/config.py`, `dir_content_diff/util.py` and the call-time
kwargs resolution of `dir_content_diff/base_comparators.py`).

Python values flowing through the engine (comparison results, kwargs values)
are modelled by the inductive `PyVal`; Python's truthiness test `if x:` is
`PyVal.truthy` and the identity test `x is not False` is inequality with the
`PyVal.pyFalse` constructor.  Python dicts that the engine only reads in
insertion order are modelled as association lists.  Functions that can raise
are modelled with `Except`.  Filesystem side effects (reading the two files,
exporting formatted files) are not modelled: a comparator is an abstract
function of the two file paths, so fixing the comparator functions fixes the
contents of both directory trees.
-/

set_option linter.unusedVariables false

/-- A Python value as far as the dispatch engine observes it: the engine only
tests values with `is not False` (sequential collection), truthiness (parallel
collection) and stringification (message formatting).  A collection value
(e.g. a raw-diff list) carries only the `repr()` strings of its elements,
because the engine never inspects the elements themselves. -/
inductive PyVal where
  | pyFalse : PyVal
  | pyTrue : PyVal
  | pyNone : PyVal
  | str : String → PyVal
  | int : Int → PyVal
  | list : List String → PyVal
  deriving Repr, DecidableEq

/-- Python truthiness (`bool(v)`), for the values modelled by `PyVal`. -/
def PyVal.truthy : PyVal → Bool
  | .pyFalse => false
  | .pyTrue => true
  | .pyNone => false
  | .str s => s.length != 0
  | .int n => n != 0
  | .list xs => !xs.isEmpty

/-- A Python keyword-argument dict, in insertion order. -/
abbrev KwDict := List (String × PyVal)

/-- Python `repr()` of a `PyVal` (used inside container and dict printing). -/
def pyRepr : PyVal → String
  | .pyFalse => "False"
  | .pyTrue => "True"
  | .pyNone => "None"
  | .str s => "'" ++ s ++ "'"
  | .int n => toString n
  | .list xs => "[" ++ String.intercalate ", " xs ++ "]"

/-- Python `str()` of a `PyVal` (as used by f-string interpolation): identical
to `repr()` except that strings are rendered without quotes. -/
def pyStr : PyVal → String
  | .str s => s
  | v => pyRepr v

/-- Python `str()` of a kwargs dict (`f"{kwargs}"`). -/
def pyStrDict (kwargs : KwDict) : String :=
  "\x7b" ++
    String.intercalate ", " (kwargs.map (fun kv => "'" ++ kv.1 ++ "': " ++ pyRepr kv.2)) ++
  "\x7d"

/-- Python `str()` of a list of positional args (`f"{list(diff_args)}"`). -/
def pyStrList (args : List PyVal) : String :=
  "[" ++ String.intercalate ", " (args.map pyRepr) ++ "]"

/-! ## `dir_content_diff/util.py`: `diff_msg_formatter` -/

/-- One `format_kwargs(kwargs, name)` section of `diff_msg_formatter`
(util.py lines 83-86): empty unless the dict is present and non-empty. -/
def format_kwargs (kwargs : Option KwDict) (name : String) : String :=
  match kwargs with
  | some ks => if ks.isEmpty then "" else "Kwargs used for " ++ name ++ ": " ++ pyStrDict ks ++ "\n"
  | none => ""

/-- `diff_msg_formatter` (util.py lines 36-123).  Returns `False` when the
reason is falsy, otherwise the difference message assembled from the
reason, the positional args and the per-stage kwargs sections. -/
def diff_msg_formatter (ref comp : String) (reason : PyVal)
    (diff_args : List PyVal) (diff_kwargs : KwDict)
    (load_kwargs format_data_kwargs filter_kwargs format_diff_kwargs
      sort_kwargs concat_kwargs report_kwargs : Option KwDict) : PyVal :=
  if !reason.truthy then .pyFalse
  else
    let reason_used := if reason ≠ .pyNone ∧ reason ≠ .pyTrue then pyStr reason else ""
    let args_used :=
      if diff_args.isEmpty then "" else
        "Args used for computing differences: " ++ pyStrList diff_args ++ "\n"
    -- the join order is load, format_data, diff, filter, format_diff, sort,
    -- concat, report (util.py lines 99-112)
    let kwargs_used :=
      String.intercalate "\n"
        ([format_kwargs load_kwargs "loading data",
          format_kwargs format_data_kwargs "formatting data",
          format_kwargs (some diff_kwargs) "computing differences",
          format_kwargs filter_kwargs "filtering differences",
          format_kwargs format_diff_kwargs "formatting differences",
          format_kwargs sort_kwargs "sorting differences",
          format_kwargs concat_kwargs "concatenating differences",
          format_kwargs report_kwargs "reporting differences"].filter
          (fun s => s.length != 0))
    let eol := if reason_used.length != 0 || args_used.length != 0 ||
        kwargs_used.length != 0 then ":\n" else "."
    .str ("The files '" ++ ref ++ "' and '" ++ comp ++ "' are different" ++ eol ++
      args_used ++ kwargs_used ++ reason_used)

/-! ## `dir_content_diff/core.py`: `compare_files` and `pick_comparator` -/

/-- A raised Python exception as `compare_files` observes it: its type name,
the `str()` of each element of `exception.args`, and whether stringifying the
args itself raises (the inner `try` of core.py lines 282-287). -/
structure PyExc where
  typeName : String
  excArgs : List String
  strFails : Bool
  deriving Repr, DecidableEq

/-- The keyword arguments given to a comparator call, as separated by the
exception handler of `compare_files`: the seven named per-stage buckets that
it pops (core.py lines 275-281) and the remaining keys, which it passes to
`diff_msg_formatter` as the diff kwargs. -/
structure StageKwargs where
  load_kwargs : Option KwDict := none
  format_data_kwargs : Option KwDict := none
  filter_kwargs : Option KwDict := none
  format_diff_kwargs : Option KwDict := none
  sort_kwargs : Option KwDict := none
  concat_kwargs : Option KwDict := none
  report_kwargs : Option KwDict := none
  diff_kwargs : KwDict := []

/-- A comparator: `pick_comparator` observes its class name and whether it is
a `BaseComparator` instance; the dispatch engine then calls it on the two file
paths.  The call is an abstract function (the file contents are folded into
it) that returns a result value or raises. -/
structure Comparator where
  className : String
  isBase : Bool
  run : String → String → List PyVal → Bool → StageKwargs → Except PyExc PyVal

/-- The placeholder used when stringifying the exception args fails
(core.py lines 285-287). -/
def unknownErrorText : String :=
  "UNKNOWN ERROR: Could not get information from the exception"

/-- The `reason` string built by the exception handler of `compare_files`
(core.py lines 288-292). -/
def exceptionReason (exc : PyExc) : String :=
  "Exception raised: (" ++ exc.typeName ++ ") " ++
    (if exc.strFails then unknownErrorText else String.intercalate "\n" exc.excArgs)

/-- `compare_files` (core.py lines 239-302): call the comparator and, if it
raises, convert the exception into a formatted difference message. -/
def compare_files (ref_file comp_file : String) (comparator : Comparator)
    (args : List PyVal) (return_raw_diffs : Bool) (kwargs : StageKwargs) : PyVal :=
  match comparator.run ref_file comp_file args return_raw_diffs kwargs with
  | .ok v => v
  | .error exc =>
    diff_msg_formatter ref_file comp_file (.str (exceptionReason exc))
      args kwargs.diff_kwargs
      kwargs.load_kwargs kwargs.format_data_kwargs kwargs.filter_kwargs
      kwargs.format_diff_kwargs kwargs.sort_kwargs kwargs.concat_kwargs
      kwargs.report_kwargs

/-- The comparator mapping: a Python dict from extension (or `None` for the
default comparator) to comparator, in insertion order. -/
abbrev CompMap := List (Option String × Comparator)

/-- Dict lookup in a comparator mapping. -/
def CompMap.lookup (m : CompMap) (key : Option String) : Option Comparator :=
  (m.find? (fun e => e.1 = key)).map (fun e => e.2)

/-- The `comparator` value handed to `pick_comparator`: either a comparator
object or a class-name string. -/
inductive CompOverride where
  | inst : Comparator → CompOverride
  | name : String → CompOverride

/-- `pick_comparator` (core.py lines 368-394).  `comparators?` is the
`comparators` parameter (`None` means the registry copy `get_comparators()`),
`globalComps` is the process-wide `_COMPARATORS` registry, which supplies the
default comparator.  Raising `RuntimeError` is modelled by `.error`.

A comparator-object override that is not a `BaseComparator` instance (a plain
callable) passes the `comparator is not None` test, but the class-name scan
`i.__class__.__name__ == comparator` compares a string with a non-string and
never succeeds, so it finds nothing. -/
def pick_comparator (comparator : Option CompOverride) (suffix : Option String)
    (comparators? : Option CompMap) (globalComps : CompMap) :
    Except String Comparator :=
  match comparator with
  | some (.inst c) =>
    if c.isBase then .ok c
    else pick_comparator_after_instance none suffix comparators? globalComps
  | some (.name s) => pick_comparator_after_instance (some s) suffix comparators? globalComps
  | none => pick_comparator_after_instance none suffix comparators? globalComps
where
  /-- The part of `pick_comparator` after the `isinstance` check, with the
  class-name scan already reduced to the string case (see above). -/
  pick_comparator_after_instance (nameOverride : Option String)
      (suffix : Option String) (comparators? : Option CompMap)
      (globalComps : CompMap) : Except String Comparator :=
    let comparators := comparators?.getD globalComps
    let nameResult : Option Comparator :=
      match nameOverride with
      | some s => (comparators.map (fun e => e.2)).find? (fun i => i.className = s)
      | none => none
    match nameResult with
    | some c => .ok c
    | none =>
      let suffixResult : Option Comparator :=
        match suffix with
        | some sfx => comparators.lookup (some sfx)
        | none => none
      match suffixResult with
      | some c => .ok c
      | none =>
        match globalComps.lookup none with
        | some c => .ok c
        | none => .error "No default comparator available"

/-! ## `ComparisonConfig` (core.py lines 82-236 / config.py lines 71-226) -/

/-- A compiled regular expression, abstracted to its matching behaviour
`pattern.match(relative_path)` (truthiness of the match object). -/
abbrev Pat := String → Bool

/-- One value of the `specific_args` dict: the three keys the engine pops
(`patterns`, `comparator`, `args`) as optional fields, and the remaining keys
as per-stage kwargs.  A missing optional field models an absent dict key. -/
structure FileArgs where
  patterns : Option (List Pat) := none
  comparator : Option CompOverride := none
  args : Option (List PyVal) := none
  kwargs : StageKwargs := {}

/-- Dict lookup in a string-keyed association list. -/
def assocLookup (m : List (String × α)) (key : String) : Option α :=
  (m.find? (fun e => e.1 = key)).map (fun e => e.2)

/-- The `specific_args` part of `ComparisonConfig.__attrs_post_init__`
(core.py lines 183-198): for every entry carrying a `patterns` key, pop that
key (mutating the caller-supplied nested dict, modelled by returning the
updated mapping) and record each pattern with the popped entry in
`pattern_specific_args`, in insertion order.  Returns the post-state of
`specific_args` and the built `pattern_specific_args`. -/
def specific_args_post_init :
    List (String × FileArgs) → List (String × FileArgs) × List (Pat × FileArgs)
  | [] => ([], [])
  | (k, v) :: rest =>
    let r := specific_args_post_init rest
    match v.patterns with
    | some pats =>
      let stripped : FileArgs := { v with patterns := none }
      ((k, stripped) :: r.1, pats.map (fun p => (p, stripped)) ++ r.2)
    | none => ((k, v) :: r.1, r.2)

/-- Which executor `compare_trees` uses. -/
inductive ExecutorType where
  | sequential : ExecutorType
  | thread : ExecutorType
  | process : ExecutorType
  deriving Repr, DecidableEq

/-- `ComparisonConfig` after `__attrs_post_init__`: patterns are already
compiled, `specific_args` is the post-pop mapping and `pattern_specific_args`
is populated.  `export_formatted_files` is omitted: it only triggers the
formatted-file export side effect, which is not modelled. -/
structure ComparisonConfig where
  compiled_include_patterns : List Pat := []
  compiled_exclude_patterns : List Pat := []
  comparators : CompMap := []
  specific_args : List (String × FileArgs) := []
  pattern_specific_args : List (Pat × FileArgs) := []
  return_raw_diffs : Bool := false
  executor_type : ExecutorType := .sequential
  max_workers : Option Nat := none

/-- `ComparisonConfig.should_ignore_file` (core.py lines 222-236). -/
def should_ignore_file (config : ComparisonConfig) (relative_path : String) : Bool :=
  if !config.compiled_include_patterns.isEmpty &&
      !(config.compiled_include_patterns.any (fun p => p relative_path)) then
    true
  else
    config.compiled_exclude_patterns.any (fun p => p relative_path)

/-! ## `_compare_single_file` and `_collect_files_to_compare` -/

/-- `Path.suffix` of pathlib: the extension of the final path component
(the characters after the last `/`), empty for names with no dot, a leading
dot only, or a trailing dot (`0 < name.rfind('.') < len(name) - 1`). -/
def pathSuffix (p : String) : String :=
  let name := p.toList.foldl (fun acc c => if c = '/' then [] else acc ++ [c]) []
  let n := name.length
  let i := (List.range n).foldl (fun acc j => if name.getD j ' ' = '.' then some j else acc) none
  match i with
  | some i => if 0 < i ∧ i < n - 1 then String.mk (name.drop i) else ""
  | none => ""

/-- The specific-arguments resolution step of `_compare_single_file`
(core.py lines 434-442): the exact-path entry of `specific_args` if present,
else the entry of the first matching pattern of `pattern_specific_args`
(which is deep-copied; copying is the identity in this pure model), else an
empty dict. -/
def resolve_specific_args (config : ComparisonConfig) (relative_path : String) : FileArgs :=
  match assocLookup config.specific_args relative_path with
  | some v => v
  | none =>
    match config.pattern_specific_args.find? (fun pv => pv.1 relative_path) with
    | some pv => pv.2
    | none => {}

/-- The "file missing from the compared tree" message of
`_compare_single_file` (core.py lines 430-431). -/
def missingFileMsg (relative_path comp_path : String) : String :=
  "The file '" ++ relative_path ++ "' does not exist in '" ++ comp_path ++ "'."

/-- `_compare_single_file` (core.py lines 409-473).  `compFiles` is the set of
relative paths existing under `comp_path`; `globalComps` is the process-wide
registry consulted by `pick_comparator` for the default comparator.  The
formatted-file export (lines 465-471) is a filesystem side effect and is not
modelled.  An escaping exception (`RuntimeError` from `pick_comparator`) is
modelled by `.error`. -/
def _compare_single_file (ref_file comp_path : String) (compFiles : List String)
    (relative_path : String) (config : ComparisonConfig) (globalComps : CompMap) :
    Except String (String × PyVal) :=
  if !(compFiles.contains relative_path) then
    .ok (relative_path, .str (missingFileMsg relative_path comp_path))
  else
    let specific_file_args := resolve_specific_args config relative_path
    match pick_comparator specific_file_args.comparator (some (pathSuffix ref_file))
        (some config.comparators) globalComps with
    | .error e => .error e
    | .ok comparator =>
      let comparator_args := specific_file_args.args.getD []
      .ok (relative_path,
        compare_files ref_file (comp_path ++ "/" ++ relative_path) comparator
          comparator_args config.return_raw_diffs specific_file_args.kwargs)

/-- `_collect_files_to_compare` (core.py lines 476-496): the non-directory
entries under the reference root (given as relative POSIX paths in traversal
order) that are not ignored. -/
def _collect_files_to_compare (refFiles : List String)
    (config : ComparisonConfig) : List String :=
  refFiles.filter (fun p => !should_ignore_file config p)

/-! ## `_split_into_chunks` (core.py lines 529-548) -/

/-- The slicing loop `items[i : i + chunk_size] for i in range(0, len(items),
chunk_size)`, written with an explicit fuel argument (the list length bounds
the number of slices, since every slice consumes at least one item) so that
the recursion is structural.  The inner `max 1` is the identity at every call
site (the caller always passes a positive chunk size). -/
def chunksLoopFuel (fuel : Nat) (items : List α) (chunk_size : Nat) : List (List α) :=
  match fuel, items with
  | _, [] => []
  | 0, _ :: _ => []
  | fuel + 1, x :: xs =>
    (x :: xs).take (max 1 chunk_size) ::
      chunksLoopFuel fuel ((x :: xs).drop (max 1 chunk_size)) chunk_size

/-- The slicing loop of `_split_into_chunks`, with the fuel instantiated. -/
def chunksLoop (items : List α) (chunk_size : Nat) : List (List α) :=
  chunksLoopFuel items.length items chunk_size

/-- `_split_into_chunks` (core.py lines 529-548). -/
def _split_into_chunks (items : List α) (num_chunks : Int) : List (List α) :=
  if num_chunks ≤ 0 then [items]
  else chunksLoop items (max 1 (items.length / num_chunks.toNat))

/-! ## `compare_trees` (core.py lines 551-691) -/

/-- The sequential collection loop of `compare_trees` (core.py lines 680-689):
a per-file result is stored when it `is not False`; an escaping exception
aborts the whole comparison. -/
def sequentialCollect (single : String → Except String (String × PyVal)) :
    List String → Except String (List (String × PyVal))
  | [] => .ok []
  | f :: rest =>
    match single f with
    | .error e => .error e
    | .ok r =>
      match sequentialCollect single rest with
      | .error e => .error e
      | .ok m => .ok (if r.2 ≠ PyVal.pyFalse then r :: m else m)

/-- The thread-mode collection loop of `compare_trees` (core.py lines
650-673): one task per file, results gathered in submission order, a result
stored when truthy (`if result:`); an exception from a worker is re-raised
and aborts the whole comparison. -/
def threadCollect (single : String → Except String (String × PyVal)) :
    List String → Except String (List (String × PyVal))
  | [] => .ok []
  | f :: rest =>
    match single f with
    | .error e => .error e
    | .ok r =>
      match threadCollect single rest with
      | .error e => .error e
      | .ok m => .ok (if r.2.truthy then r :: m else m)

/-- `_compare_file_chunk` (core.py lines 499-526): every file of the chunk is
compared, and a per-file escaping exception is caught and turned into an
inline `"Error comparing file: ..."` result. -/
def _compare_file_chunk (single : String → Except String (String × PyVal))
    (chunk : List String) : List (String × PyVal) :=
  chunk.map (fun rel =>
    match single rel with
    | .ok r => r
    | .error e => (rel, .str ("Error comparing file: " ++ e)))

/-- The process-mode collection of `compare_trees` (core.py lines 622-647):
files are split into chunks, empty chunks are skipped, each chunk is compared
as a unit, and chunk results are gathered in submission order, a result
stored when truthy (`if result:`). -/
def processCollect (single : String → Except String (String × PyVal))
    (files : List String) (actual_max_workers : Nat) : List (String × PyVal) :=
  let file_chunks := _split_into_chunks files (actual_max_workers : Int)
  ((((file_chunks.filter (fun c => !c.isEmpty)).map
      (_compare_file_chunk single)).flatten).filter (fun r => r.2.truthy))

/-- The per-file unit of work of `compare_trees`: `_compare_single_file` on
the reference file `ref_path/relative_path` (as produced by the glob of
`_collect_files_to_compare`). -/
def treeSingle (ref_path comp_path : String) (compFiles : List String)
    (config : ComparisonConfig) (globalComps : CompMap) :
    String → Except String (String × PyVal) :=
  fun rel =>
    _compare_single_file (ref_path ++ "/" ++ rel) comp_path compFiles rel config globalComps

/-- `compare_trees` (core.py lines 551-691) for an already-built
configuration.  `refFiles` are the relative POSIX paths of the non-directory
entries under `ref_path` in traversal order; `compFiles` those under
`comp_path`; `cpu_count` is `os.cpu_count()`.  Parallel execution is used
only when the executor type is not sequential and more than one file remains
after filtering. -/
def compare_trees (ref_path comp_path : String) (refFiles compFiles : List String)
    (globalComps : CompMap) (config : ComparisonConfig) (cpu_count : Option Nat) :
    Except String (List (String × PyVal)) :=
  let files_to_compare := _collect_files_to_compare refFiles config
  let single := treeSingle ref_path comp_path compFiles config globalComps
  if config.executor_type ≠ ExecutorType.sequential ∧ files_to_compare.length > 1 then
    let actual_max_workers := config.max_workers.getD (min 32 (cpu_count.getD 1 + 4))
    if config.executor_type = ExecutorType.process then
      .ok (processCollect single files_to_compare actual_max_workers)
    else
      threadCollect single files_to_compare
  else
    sequentialCollect single files_to_compare

/-! ## `assert_equal_trees` (core.py lines 694-733) -/

/-- `sorted(different_files.items(), key=lambda x: x[0])`: a key-ascending
sort of the outcome entries (insertion sort; the keys of a dict are distinct,
so any sorting algorithm models Python's stable `sorted`). -/
def sortByKey (l : List (String × PyVal)) : List (String × PyVal) :=
  List.insertionSort (fun a b => a.1 ≤ b.1) l

/-- `assert_equal_trees` (core.py lines 694-733): run `compare_trees`, sort
the outcome entries by relative path and, when any remain, raise a single
`AssertionError` joining the messages with a triple newline; otherwise return
`True`.  An error is the pair (exception type, message); the pytest export
trigger (lines 713-720) only affects the unmodelled export side effect. -/
def assert_equal_trees (ref_path comp_path : String)
    (refFiles compFiles : List String) (globalComps : CompMap)
    (config : ComparisonConfig) (cpu_count : Option Nat) :
    Except (String × String) Bool :=
  match compare_trees ref_path comp_path refFiles compFiles globalComps config cpu_count with
  | .error e => .error ("RuntimeError", e)
  | .ok different_files =>
    let sorted_items := sortByKey different_files
    if sorted_items.length > 0 then
      .error ("AssertionError",
        String.intercalate "\n\n\n" (sorted_items.map (fun i => pyStr i.2)))
    else .ok true

/-! ## `BaseComparator.__call__` kwargs resolution
(base_comparators.py lines 180-195) -/

/-- The per-instance stage-kwargs defaults configured at construction
(`default_<stage>_kwargs`, base_comparators.py lines 40-47; a `None` argument
is already replaced by `{}` there). -/
structure ComparatorDefaults where
  default_load_kwargs : KwDict := []
  default_format_data_kwargs : KwDict := []
  default_diff_kwargs : KwDict := []
  default_filter_kwargs : KwDict := []
  default_format_diff_kwargs : KwDict := []
  default_sort_kwargs : KwDict := []
  default_concat_kwargs : KwDict := []
  default_report_kwargs : KwDict := []

/-- The kwargs each pipeline stage effectively runs with. -/
structure EffectiveKwargs where
  load_kwargs : KwDict
  format_data_kwargs : KwDict
  diff_kwargs : KwDict
  filter_kwargs : KwDict
  format_diff_kwargs : KwDict
  sort_kwargs : KwDict
  concat_kwargs : KwDict
  report_kwargs : KwDict
  deriving Repr, DecidableEq

/-- The kwargs-resolution prologue of `BaseComparator.__call__`
(base_comparators.py lines 180-195): each named stage bucket falls back to
the per-instance default only when it `is None` at call time, while the
`**diff_kwargs` catch-all falls back when it is empty (`if not diff_kwargs`,
since an absent catch-all is indistinguishable from an explicitly empty
one). -/
def base_comparator_call_kwargs (self : ComparatorDefaults) (c : StageKwargs) :
    EffectiveKwargs where
  load_kwargs := match c.load_kwargs with
    | none => self.default_load_kwargs
    | some d => d
  format_data_kwargs := match c.format_data_kwargs with
    | none => self.default_format_data_kwargs
    | some d => d
  diff_kwargs := if c.diff_kwargs.isEmpty then self.default_diff_kwargs else c.diff_kwargs
  filter_kwargs := match c.filter_kwargs with
    | none => self.default_filter_kwargs
    | some d => d
  format_diff_kwargs := match c.format_diff_kwargs with
    | none => self.default_format_diff_kwargs
    | some d => d
  sort_kwargs := match c.sort_kwargs with
    | none => self.default_sort_kwargs
    | some d => d
  concat_kwargs := match c.concat_kwargs with
    | none => self.default_concat_kwargs
    | some d => d
  report_kwargs := match c.report_kwargs with
    | none => self.default_report_kwargs
    | some d => d

/-! ## Helper lemmas -/

theorem chunksLoopFuel_flatten (fuel : Nat) (l : List α) (s : Nat)
    (h : l.length ≤ fuel) : (chunksLoopFuel fuel l s).flatten = l := by
  induction fuel generalizing l with
  | zero =>
    cases l with
    | nil => rfl
    | cons x xs => simp at h
  | succ n ih =>
    cases l with
    | nil => rfl
    | cons x xs =>
      rw [chunksLoopFuel, List.flatten_cons, ih _ ?_, List.take_append_drop]
      simp only [List.length_drop, List.length_cons]
      have h1 : 1 ≤ max 1 s := Nat.le_max_left 1 s
      simp only [List.length_cons] at h
      omega

theorem chunksLoop_flatten (l : List α) (s : Nat) : (chunksLoop l s).flatten = l :=
  chunksLoopFuel_flatten l.length l s (Nat.le_refl _)

theorem chunksLoopFuel_ne_nil (fuel : Nat) (l : List α) (s : Nat) :
    ∀ c ∈ chunksLoopFuel fuel l s, c ≠ [] := by
  induction fuel generalizing l with
  | zero =>
    intro c hc
    cases l <;> cases hc
  | succ n ih =>
    intro c hc
    cases l with
    | nil => cases hc
    | cons x xs =>
      rw [chunksLoopFuel] at hc
      rcases List.mem_cons.mp hc with h | h
      · subst h
        have h1 : 1 ≤ max 1 s := Nat.le_max_left 1 s
        intro hfalse
        have h0 : ((x :: xs).take (max 1 s)).length = 0 := by rw [hfalse]; rfl
        simp only [List.length_take, List.length_cons] at h0
        omega
      · exact ih _ c h

theorem chunksLoop_ne_nil (l : List α) (s : Nat) : ∀ c ∈ chunksLoop l s, c ≠ [] :=
  chunksLoopFuel_ne_nil l.length l s

theorem split_into_chunks_flatten (items : List α) (n : Int) :
    (_split_into_chunks items n).flatten = items := by
  unfold _split_into_chunks
  split
  · simp
  · exact chunksLoop_flatten items _

theorem split_into_chunks_ne_nil (items : List α) (n : Int) (h : items ≠ []) :
    ∀ c ∈ _split_into_chunks items n, c ≠ [] := by
  unfold _split_into_chunks
  split
  · intro c hc
    simp only [List.mem_singleton] at hc
    subst hc; exact h
  · exact chunksLoop_ne_nil items _

theorem assocLookup_eq_some {m : List (String × α)} {p : String} {v : α}
    (hex : (p, v) ∈ m) (hall : ∀ e ∈ m, e.1 = p → e.2 = v) :
    assocLookup m p = some v := by
  induction m with
  | nil => cases hex
  | cons y ys ih =>
    unfold assocLookup
    by_cases h : y.1 = p
    · have hv := hall y (List.mem_cons_self y ys) h
      simp [List.find?_cons, h, hv]
    · simp only [List.find?_cons, h, decide_eq_true_eq, if_neg, ite_false]
      have hex' : (p, v) ∈ ys := by
        rcases List.mem_cons.mp hex with h1 | h1
        · exact absurd (congrArg Prod.fst h1.symm) h
        · exact h1
      exact ih hex' (fun e he h2 => hall e (List.mem_cons_of_mem y he) h2)

theorem assocLookup_eq_none {m : List (String × α)} {p : String}
    (h : ∀ e ∈ m, e.1 ≠ p) : assocLookup m p = none := by
  unfold assocLookup
  rw [List.find?_eq_none.mpr]
  · rfl
  · intro e he
    simp only [decide_eq_true_eq]
    exact h e he

theorem compare_single_file_fst {rf cp : String} {cf : List String} {rel : String}
    {config : ComparisonConfig} {g : CompMap} {e : String × PyVal}
    (h : _compare_single_file rf cp cf rel config g = .ok e) : e.1 = rel := by
  simp only [_compare_single_file] at h
  split at h
  · cases h; rfl
  · split at h
    · cases h
    · cases h; rfl

theorem sequentialCollect_ok_mem {single : String → Except String (String × PyVal)}
    {files : List String} {m : List (String × PyVal)}
    (h : sequentialCollect single files = .ok m) :
    ∀ e ∈ m, (∃ f ∈ files, single f = .ok e) ∧ e.2 ≠ PyVal.pyFalse := by
  induction files generalizing m with
  | nil =>
    cases h
    intro e he; cases he
  | cons f rest ih =>
    rw [sequentialCollect] at h
    cases hf : single f with
    | error err => rw [hf] at h; cases h
    | ok r =>
      rw [hf] at h
      cases hrest : sequentialCollect single rest with
      | error err => rw [hrest] at h; cases h
      | ok m2 =>
        rw [hrest] at h
        cases h
        intro e he
        by_cases hc : r.2 ≠ PyVal.pyFalse
        · rw [if_pos hc] at he
          rcases List.mem_cons.mp he with h1 | h1
          · subst h1; exact ⟨⟨f, List.mem_cons_self f rest, hf⟩, hc⟩
          · obtain ⟨⟨f2, hf2, hs⟩, hne⟩ := ih hrest e h1
            exact ⟨⟨f2, List.mem_cons_of_mem f hf2, hs⟩, hne⟩
        · rw [if_neg hc] at he
          obtain ⟨⟨f2, hf2, hs⟩, hne⟩ := ih hrest e he
          exact ⟨⟨f2, List.mem_cons_of_mem f hf2, hs⟩, hne⟩

theorem sequentialCollect_ok_entry {single : String → Except String (String × PyVal)}
    {files : List String} {m : List (String × PyVal)} {p : String} {v : PyVal}
    (h : sequentialCollect single files = .ok m) (hp : p ∈ files)
    (hv : single p = .ok (p, v)) (hne : v ≠ PyVal.pyFalse) : (p, v) ∈ m := by
  induction files generalizing m with
  | nil => cases hp
  | cons f rest ih =>
    rw [sequentialCollect] at h
    cases hf : single f with
    | error err => rw [hf] at h; cases h
    | ok r =>
      rw [hf] at h
      cases hrest : sequentialCollect single rest with
      | error err => rw [hrest] at h; cases h
      | ok m2 =>
        rw [hrest] at h
        cases h
        rcases List.mem_cons.mp hp with h1 | h1
        · subst h1
          rw [hf] at hv
          cases hv
          rw [if_pos hne]
          exact List.mem_cons_self _ _
        · have hm2 := ih hrest h1
          by_cases hc : r.2 ≠ PyVal.pyFalse
          · rw [if_pos hc]; exact List.mem_cons_of_mem _ hm2
          · rw [if_neg hc]; exact hm2

theorem sequentialCollect_isOk {single : String → Except String (String × PyVal)}
    {files : List String}
    (h : ∀ f ∈ files, (single f).isOk = true) :
    (sequentialCollect single files).isOk = true := by
  induction files with
  | nil => rfl
  | cons f rest ih =>
    cases hf : single f with
    | error err =>
      have hh := h f (List.mem_cons_self f rest)
      rw [hf] at hh
      rw [sequentialCollect, hf]
      exact hh
    | ok r =>
      rw [sequentialCollect, hf]
      cases hrest : sequentialCollect single rest with
      | error err =>
        have hh := ih (fun g hg => h g (List.mem_cons_of_mem f hg))
        rw [hrest] at hh
        exact hh
      | ok m2 => rfl

theorem sequentialCollect_eq_filter {single : String → Except String (String × PyVal)}
    {files : List String} {res : String → PyVal}
    (h : ∀ f ∈ files, single f = .ok (f, res f)) :
    sequentialCollect single files
      = .ok ((files.map (fun f => (f, res f))).filter
          (fun r => decide (r.2 ≠ PyVal.pyFalse))) := by
  induction files with
  | nil => rfl
  | cons f rest ih =>
    rw [sequentialCollect, h f (List.mem_cons_self f rest),
      ih (fun g hg => h g (List.mem_cons_of_mem f hg))]
    simp only [List.map_cons, List.filter_cons]
    by_cases hc : res f ≠ PyVal.pyFalse
    · simp [hc]
    · simp [hc]

theorem threadCollect_ok_mem {single : String → Except String (String × PyVal)}
    {files : List String} {m : List (String × PyVal)}
    (h : threadCollect single files = .ok m) :
    ∀ e ∈ m, (∃ f ∈ files, single f = .ok e) ∧ e.2.truthy = true := by
  induction files generalizing m with
  | nil =>
    cases h
    intro e he; cases he
  | cons f rest ih =>
    rw [threadCollect] at h
    cases hf : single f with
    | error err => rw [hf] at h; cases h
    | ok r =>
      rw [hf] at h
      cases hrest : threadCollect single rest with
      | error err => rw [hrest] at h; cases h
      | ok m2 =>
        rw [hrest] at h
        cases h
        intro e he
        by_cases hc : r.2.truthy = true
        · rw [if_pos hc] at he
          rcases List.mem_cons.mp he with h1 | h1
          · subst h1; exact ⟨⟨f, List.mem_cons_self f rest, hf⟩, hc⟩
          · obtain ⟨⟨f2, hf2, hs⟩, hne⟩ := ih hrest e h1
            exact ⟨⟨f2, List.mem_cons_of_mem f hf2, hs⟩, hne⟩
        · rw [if_neg hc] at he
          obtain ⟨⟨f2, hf2, hs⟩, hne⟩ := ih hrest e he
          exact ⟨⟨f2, List.mem_cons_of_mem f hf2, hs⟩, hne⟩

theorem threadCollect_ok_entry {single : String → Except String (String × PyVal)}
    {files : List String} {m : List (String × PyVal)} {p : String} {v : PyVal}
    (h : threadCollect single files = .ok m) (hp : p ∈ files)
    (hv : single p = .ok (p, v)) (ht : v.truthy = true) : (p, v) ∈ m := by
  induction files generalizing m with
  | nil => cases hp
  | cons f rest ih =>
    rw [threadCollect] at h
    cases hf : single f with
    | error err => rw [hf] at h; cases h
    | ok r =>
      rw [hf] at h
      cases hrest : threadCollect single rest with
      | error err => rw [hrest] at h; cases h
      | ok m2 =>
        rw [hrest] at h
        cases h
        rcases List.mem_cons.mp hp with h1 | h1
        · subst h1
          rw [hf] at hv
          cases hv
          rw [if_pos ht]
          exact List.mem_cons_self _ _
        · have hm2 := ih hrest h1
          by_cases hc : r.2.truthy = true
          · rw [if_pos hc]; exact List.mem_cons_of_mem _ hm2
          · rw [if_neg hc]; exact hm2

theorem threadCollect_isOk {single : String → Except String (String × PyVal)}
    {files : List String}
    (h : ∀ f ∈ files, (single f).isOk = true) :
    (threadCollect single files).isOk = true := by
  induction files with
  | nil => rfl
  | cons f rest ih =>
    cases hf : single f with
    | error err =>
      have hh := h f (List.mem_cons_self f rest)
      rw [hf] at hh
      rw [threadCollect, hf]
      exact hh
    | ok r =>
      rw [threadCollect, hf]
      cases hrest : threadCollect single rest with
      | error err =>
        have hh := ih (fun g hg => h g (List.mem_cons_of_mem f hg))
        rw [hrest] at hh
        exact hh
      | ok m2 => rfl

theorem threadCollect_eq_filter {single : String → Except String (String × PyVal)}
    {files : List String} {res : String → PyVal}
    (h : ∀ f ∈ files, single f = .ok (f, res f)) :
    threadCollect single files
      = .ok ((files.map (fun f => (f, res f))).filter (fun r => r.2.truthy)) := by
  induction files with
  | nil => rfl
  | cons f rest ih =>
    rw [threadCollect, h f (List.mem_cons_self f rest),
      ih (fun g hg => h g (List.mem_cons_of_mem f hg))]
    simp only [List.map_cons, List.filter_cons]

theorem flatten_map_filter_nonempty (l : List (List α)) (g : List α → List β)
    (hg : g [] = []) :
    ((l.filter (fun c => !c.isEmpty)).map g).flatten = (l.map g).flatten := by
  induction l with
  | nil => rfl
  | cons c cs ih =>
    by_cases hc : c.isEmpty
    · have hnil : c = [] := List.isEmpty_iff.mp hc
      subst hnil
      simp [hg, ih]
    · simp only [List.filter_cons, hc, Bool.not_false, if_pos, List.map_cons,
        List.flatten_cons, ih]

theorem compare_file_chunk_eq {single : String → Except String (String × PyVal)}
    {chunk : List String} {res : String → PyVal}
    (h : ∀ f ∈ chunk, single f = .ok (f, res f)) :
    _compare_file_chunk single chunk = chunk.map (fun f => (f, res f)) := by
  unfold _compare_file_chunk
  apply List.map_congr_left
  intro f hf
  rw [h f hf]

theorem compare_file_chunk_mem {single : String → Except String (String × PyVal)}
    {chunk : List String} :
    ∀ e ∈ _compare_file_chunk single chunk, ∃ f ∈ chunk,
      single f = .ok e ∨
        ∃ err, single f = .error err ∧ e = (f, .str ("Error comparing file: " ++ err)) := by
  intro e he
  unfold _compare_file_chunk at he
  obtain ⟨f, hf, hfe⟩ := List.mem_map.mp he
  refine ⟨f, hf, ?_⟩
  cases hs : single f with
  | ok r =>
    left
    rw [hs] at hfe
    exact congrArg Except.ok hfe
  | error err =>
    right
    rw [hs] at hfe
    exact ⟨err, rfl, hfe.symm⟩

theorem processCollect_mem {single : String → Except String (String × PyVal)}
    {files : List String} {w : Nat} :
    ∀ e ∈ processCollect single files w,
      e.2.truthy = true ∧ ∃ f ∈ files,
        single f = .ok e ∨
          ∃ err, single f = .error err ∧
            e = (f, .str ("Error comparing file: " ++ err)) := by
  intro e he
  unfold processCollect at he
  obtain ⟨he1, he2⟩ := List.mem_filter.mp he
  refine ⟨he2, ?_⟩
  obtain ⟨part, hpart, hepart⟩ := List.mem_flatten.mp he1
  obtain ⟨chunk, hchunk, hgc⟩ := List.mem_map.mp hpart
  subst hgc
  obtain ⟨f, hf, hcase⟩ := compare_file_chunk_mem e hepart
  refine ⟨f, ?_, hcase⟩
  have hc2 : chunk ∈ _split_into_chunks files (w : Int) := (List.mem_filter.mp hchunk).1
  rw [← split_into_chunks_flatten files (w : Int)]
  exact List.mem_flatten.mpr ⟨chunk, hc2, hf⟩

theorem processCollect_entry {single : String → Except String (String × PyVal)}
    {files : List String} {w : Nat} {p : String} {v : PyVal}
    (hp : p ∈ files) (hv : single p = .ok (p, v)) (ht : v.truthy = true) :
    (p, v) ∈ processCollect single files w := by
  unfold processCollect
  apply List.mem_filter.mpr
  refine ⟨?_, ht⟩
  have hp2 : p ∈ (_split_into_chunks files (w : Int)).flatten := by
    rw [split_into_chunks_flatten files (w : Int)]; exact hp
  obtain ⟨chunk, hchunk, hpc⟩ := List.mem_flatten.mp hp2
  apply List.mem_flatten.mpr
  refine ⟨_compare_file_chunk single chunk, ?_, ?_⟩
  · apply List.mem_map_of_mem
    apply List.mem_filter.mpr
    refine ⟨hchunk, ?_⟩
    have : chunk ≠ [] := fun hnil => by subst hnil; cases hpc
    simpa [List.isEmpty_iff] using this
  · unfold _compare_file_chunk
    have : (p, v) = (match single p with
        | .ok r => r
        | .error e => (p, .str ("Error comparing file: " ++ e))) := by rw [hv]
    rw [this]
    exact List.mem_map_of_mem _ hpc

theorem processCollect_eq_filter {single : String → Except String (String × PyVal)}
    {files : List String} {w : Nat} {res : String → PyVal}
    (h : ∀ f ∈ files, single f = .ok (f, res f)) :
    processCollect single files w
      = (files.map (fun f => (f, res f))).filter (fun r => r.2.truthy) := by
  show ((((_split_into_chunks files (w : Int)).filter (fun c => !c.isEmpty)).map
      (_compare_file_chunk single)).flatten).filter (fun r => r.2.truthy)
    = (files.map (fun f => (f, res f))).filter (fun r => r.2.truthy)
  rw [flatten_map_filter_nonempty _ _ rfl]
  have h1 : (_split_into_chunks files (w : Int)).map (_compare_file_chunk single)
      = (_split_into_chunks files (w : Int)).map (fun c => c.map (fun f => (f, res f))) := by
    apply List.map_congr_left
    intro chunk hc
    apply compare_file_chunk_eq
    intro f hf
    apply h
    rw [← split_into_chunks_flatten files (w : Int)]
    exact List.mem_flatten.mpr ⟨chunk, hc, hf⟩
  rw [h1, ← List.map_flatten, split_into_chunks_flatten]

theorem compare_trees_sequential_run {rp cp : String} {refFiles compFiles : List String}
    {g : CompMap} {config : ComparisonConfig} {cpu : Option Nat}
    (h : config.executor_type = ExecutorType.sequential) :
    compare_trees rp cp refFiles compFiles g config cpu
      = sequentialCollect (treeSingle rp cp compFiles config g)
          (_collect_files_to_compare refFiles config) := by
  unfold compare_trees
  rw [if_neg]
  intro hcontra
  exact hcontra.1 h

theorem compare_trees_small_run {rp cp : String} {refFiles compFiles : List String}
    {g : CompMap} {config : ComparisonConfig} {cpu : Option Nat}
    (h : ¬ (_collect_files_to_compare refFiles config).length > 1) :
    compare_trees rp cp refFiles compFiles g config cpu
      = sequentialCollect (treeSingle rp cp compFiles config g)
          (_collect_files_to_compare refFiles config) := by
  unfold compare_trees
  rw [if_neg]
  intro hcontra
  exact h hcontra.2

theorem compare_trees_thread_run {rp cp : String} {refFiles compFiles : List String}
    {g : CompMap} {config : ComparisonConfig} {cpu : Option Nat}
    (h : config.executor_type = ExecutorType.thread)
    (hlen : (_collect_files_to_compare refFiles config).length > 1) :
    compare_trees rp cp refFiles compFiles g config cpu
      = threadCollect (treeSingle rp cp compFiles config g)
          (_collect_files_to_compare refFiles config) := by
  unfold compare_trees
  rw [if_pos ⟨(by rw [h]; intro hx; cases hx), hlen⟩, if_neg (by rw [h]; intro hx; cases hx)]

theorem compare_trees_process_run {rp cp : String} {refFiles compFiles : List String}
    {g : CompMap} {config : ComparisonConfig} {cpu : Option Nat}
    (h : config.executor_type = ExecutorType.process)
    (hlen : (_collect_files_to_compare refFiles config).length > 1) :
    compare_trees rp cp refFiles compFiles g config cpu
      = .ok (processCollect (treeSingle rp cp compFiles config g)
          (_collect_files_to_compare refFiles config)
          (config.max_workers.getD (min 32 (cpu.getD 1 + 4)))) := by
  unfold compare_trees
  rw [if_pos ⟨(by rw [h]; intro hx; cases hx), hlen⟩, if_pos h]

theorem compare_trees_cases {rp cp : String} {refFiles compFiles : List String}
    {g : CompMap} {config : ComparisonConfig} {cpu : Option Nat}
    {m : List (String × PyVal)}
    (h : compare_trees rp cp refFiles compFiles g config cpu = .ok m) :
    sequentialCollect (treeSingle rp cp compFiles config g)
        (_collect_files_to_compare refFiles config) = .ok m
    ∨ threadCollect (treeSingle rp cp compFiles config g)
        (_collect_files_to_compare refFiles config) = .ok m
    ∨ ∃ w, processCollect (treeSingle rp cp compFiles config g)
        (_collect_files_to_compare refFiles config) w = m := by
  by_cases hlen : (_collect_files_to_compare refFiles config).length > 1
  · cases het : config.executor_type with
    | sequential => left; rw [← compare_trees_sequential_run het]; exact h
    | thread => right; left; rw [← compare_trees_thread_run het hlen]; exact h
    | process =>
      right; right
      rw [compare_trees_process_run het hlen] at h
      exact ⟨_, Except.ok.inj h⟩
  · left; rw [← compare_trees_small_run hlen]; exact h

theorem diff_msg_formatter_reason_str {s : String} (hs : s.length ≠ 0)
    (ref comp : String) (args : List PyVal) (dkw : KwDict)
    (l fd fl fdi so co rp : Option KwDict) :
    ∃ argsUsed kwargsUsed : String,
      diff_msg_formatter ref comp (.str s) args dkw l fd fl fdi so co rp
        = .str ("The files '" ++ ref ++ "' and '" ++ comp ++ "' are different" ++ ":\n"
            ++ argsUsed ++ kwargsUsed ++ s) := by
  have hbne : (s.length != 0) = true := by
    simp only [bne_iff_ne, ne_eq]
    exact hs
  refine ⟨if args.isEmpty then "" else
      "Args used for computing differences: " ++ pyStrList args ++ "\n",
    String.intercalate "\n"
      ([format_kwargs l "loading data",
        format_kwargs fd "formatting data",
        format_kwargs (some dkw) "computing differences",
        format_kwargs fl "filtering differences",
        format_kwargs fdi "formatting differences",
        format_kwargs so "sorting differences",
        format_kwargs co "concatenating differences",
        format_kwargs rp "reporting differences"].filter
        (fun t => t.length != 0)), ?_⟩
  unfold diff_msg_formatter
  simp only [PyVal.truthy, hbne, Bool.not_true, if_false, ne_eq, reduceCtorEq,
    not_false_iff, and_self, if_true, pyStr, Bool.true_or, Bool.or_true]

theorem contains_eq_false_of_not_mem {l : List String} {a : String} (h : a ∉ l) :
    l.contains a = false := by
  cases hc : l.contains a
  · rfl
  · exact absurd (List.elem_iff.mp hc) h

theorem compare_single_file_missing {rf cp : String} {cf : List String} {rel : String}
    {config : ComparisonConfig} {g : CompMap} (h : rel ∉ cf) :
    _compare_single_file rf cp cf rel config g
      = .ok (rel, .str (missingFileMsg rel cp)) := by
  unfold _compare_single_file
  rw [contains_eq_false_of_not_mem h]
  rfl

theorem missingFileMsg_length (p cp : String) : (missingFileMsg p cp).length ≠ 0 := by
  unfold missingFileMsg
  simp only [String.length_append]
  have h10 : ("The file '").length = 10 := by decide
  omega

theorem missingFileMsg_truthy (p cp : String) :
    (PyVal.str (missingFileMsg p cp)).truthy = true := by
  simp only [PyVal.truthy, bne_iff_ne, ne_eq]
  exact missingFileMsg_length p cp

theorem sortByKey_perm (l : List (String × PyVal)) : (sortByKey l).Perm l :=
  List.perm_insertionSort _ l

theorem sortByKey_sorted (l : List (String × PyVal)) :
    (sortByKey l).Pairwise (fun a b => a.1 ≤ b.1) := by
  haveI : IsTotal (String × PyVal) (fun a b => a.1 ≤ b.1) :=
    ⟨fun a b => le_total a.1 b.1⟩
  haveI : IsTrans (String × PyVal) (fun a b => a.1 ≤ b.1) :=
    ⟨fun a b c h1 h2 => le_trans h1 h2⟩
  exact List.sorted_insertionSort _ l

theorem sortByKey_length (l : List (String × PyVal)) :
    (sortByKey l).length = l.length :=
  (sortByKey_perm l).length_eq

theorem FileArgs_strip_id {v : FileArgs} (h : v.patterns = none) :
    { v with patterns := none } = v := by
  obtain ⟨p, c, a, kw⟩ := v
  subst h
  rfl

theorem specific_args_post_init_fst (d : List (String × FileArgs)) :
    (specific_args_post_init d).1
      = d.map (fun e => (e.1, { e.2 with patterns := none })) := by
  induction d with
  | nil => rfl
  | cons e rest ih =>
    obtain ⟨k, v⟩ := e
    cases hp : v.patterns with
    | some pats => simp only [specific_args_post_init, hp, List.map_cons, ih]
    | none =>
      simp only [specific_args_post_init, hp, List.map_cons, ih, FileArgs_strip_id hp]

theorem specific_args_post_init_all_none (d : List (String × FileArgs)) :
    ∀ e ∈ (specific_args_post_init d).1, e.2.patterns = none := by
  rw [specific_args_post_init_fst]
  intro e he
  obtain ⟨x, hx, hxe⟩ := List.mem_map.mp he
  rw [← hxe]

theorem specific_args_post_init_idem (d : List (String × FileArgs))
    (h : ∀ e ∈ d, e.2.patterns = none) :
    specific_args_post_init d = (d, []) := by
  induction d with
  | nil => rfl
  | cons e rest ih =>
    obtain ⟨k, v⟩ := e
    have hv : v.patterns = none := h (k, v) (List.mem_cons_self _ _)
    simp only [specific_args_post_init, hv,
      ih (fun x hx => h x (List.mem_cons_of_mem _ hx))]

theorem assocLookup_map_value {l : List (String × α)} {k : String}
    (h0 : α → β) :
    assocLookup (l.map (fun e => (e.1, h0 e.2))) k = (assocLookup l k).map h0 := by
  induction l with
  | nil => rfl
  | cons e rest ih =>
    unfold assocLookup at ih ⊢
    by_cases h : e.1 = k
    · simp [List.find?_cons, h]
    · simp only [List.map_cons, List.find?_cons, h, decide_eq_true_eq, if_neg]
      exact ih

theorem specific_args_post_init_snd_append (a b : List (String × FileArgs)) :
    (specific_args_post_init (a ++ b)).2
      = (specific_args_post_init a).2 ++ (specific_args_post_init b).2 := by
  induction a with
  | nil => rfl
  | cons e rest ih =>
    obtain ⟨k, v⟩ := e
    show (specific_args_post_init ((k, v) :: (rest ++ b))).2 = _
    cases hp : v.patterns with
    | some pats =>
      simp only [specific_args_post_init, hp, ih, List.append_assoc]
    | none =>
      simp only [specific_args_post_init, hp, ih]

theorem specific_args_post_init_snd_mem (d : List (String × FileArgs)) :
    ∀ pv ∈ (specific_args_post_init d).2, ∃ e ∈ d, ∃ ps,
      e.2.patterns = some ps ∧ pv.1 ∈ ps ∧ pv.2 = { e.2 with patterns := none } := by
  induction d with
  | nil => intro pv h; cases h
  | cons e rest ih =>
    obtain ⟨k, v⟩ := e
    intro pv hpv
    cases hp : v.patterns with
    | some pats =>
      rw [specific_args_post_init] at hpv
      simp only [hp] at hpv
      rcases List.mem_append.mp hpv with h1 | h1
      · obtain ⟨p, hpmem, hpe⟩ := List.mem_map.mp h1
        refine ⟨(k, v), List.mem_cons_self _ _, pats, hp, ?_, ?_⟩
        · rw [← hpe]; exact hpmem
        · rw [← hpe]
      · obtain ⟨e2, he2, ps, hps, hmem, hval⟩ := ih pv h1
        exact ⟨e2, List.mem_cons_of_mem _ he2, ps, hps, hmem, hval⟩
    | none =>
      rw [specific_args_post_init] at hpv
      simp only [hp] at hpv
      obtain ⟨e2, he2, ps, hps, hmem, hval⟩ := ih pv hpv
      exact ⟨e2, List.mem_cons_of_mem _ he2, ps, hps, hmem, hval⟩

theorem find_first_matching_pattern {pats : List Pat} {w : FileArgs} {x : String}
    (h : ∃ p ∈ pats, p x = true) :
    ∃ p, (pats.map (fun q => (q, w))).find? (fun pv => pv.1 x) = some (p, w) := by
  induction pats with
  | nil => obtain ⟨p, hp, _⟩ := h; cases hp
  | cons q rest ih =>
    by_cases hq : q x = true
    · exact ⟨q, by simp [List.find?_cons, hq]⟩
    · obtain ⟨p, hp, hpx⟩ := h
      rcases List.mem_cons.mp hp with h1 | h1
      · subst h1; exact absurd hpx hq
      · obtain ⟨p2, hfind⟩ := ih ⟨p, h1, hpx⟩
        refine ⟨p2, ?_⟩
        simp only [List.map_cons, List.find?_cons, hq, if_neg]
        exact hfind

/-! ## Concrete instances used by the witnesses and counterexamples -/

/-- A `JsonComparator`-style strategy: its diff of the two (equal) fixture
files is empty, so the raw-diff payload is the empty list and the formatted
result is `False`. -/
def jsonCmpFix : Comparator where
  className := "JsonComparator"
  isBase := true
  run := fun _ _ _ raw _ => .ok (if raw then .list [] else .pyFalse)

/-- A `DefaultComparator`-style strategy finding no difference. -/
def defaultCmpFix : Comparator where
  className := "DefaultComparator"
  isBase := true
  run := fun _ _ _ _ _ => .ok .pyFalse

/-- A strategy that reports a difference message for every file pair. -/
def diffCmpFix : Comparator where
  className := "DiffComparator"
  isBase := true
  run := fun _ _ _ _ _ => .ok (.str "files differ")

/-- A strategy whose pipeline raises `ValueError("boom")` on every call. -/
def raisingCmpFix : Comparator where
  className := "RaisingComparator"
  isBase := true
  run := fun _ _ _ _ _ =>
    .error { typeName := "ValueError", excArgs := ["boom"], strFails := false }

/-- A registry with a default comparator and one for `.json`. -/
def globalCompsFix : CompMap := [(none, defaultCmpFix), (some ".json", jsonCmpFix)]

/-- A raw-diff configuration over `globalCompsFix`, parameterized by the
executor type. -/
def rawConfigFix (et : ExecutorType) : ComparisonConfig :=
  { comparators := globalCompsFix, return_raw_diffs := true,
    executor_type := et, max_workers := some 2 }

/-! ## Claims -/

/-- C1 (counterexample): the claim fails as stated.  With two equal `.json`
files and a raw-diffs configuration, the per-file result is the empty raw-diff
list `[]`, which `is not False` but is falsy: sequential mode stores both
entries (core.py line 685 tests `result is not False`) while thread and
process modes drop them (lines 643 and 667 test `if result:`), so the key
sets differ between the modes for this fixed input. -/
theorem compare_trees_mode_divergence_counterexample :
    compare_trees "ref" "comp" ["a.json", "b.json"] ["a.json", "b.json"]
        globalCompsFix (rawConfigFix .sequential) (some 8)
      = .ok [("a.json", .list []), ("b.json", .list [])]
    ∧ compare_trees "ref" "comp" ["a.json", "b.json"] ["a.json", "b.json"]
        globalCompsFix (rawConfigFix .thread) (some 8)
      = .ok []
    ∧ compare_trees "ref" "comp" ["a.json", "b.json"] ["a.json", "b.json"]
        globalCompsFix (rawConfigFix .process) (some 8)
      = .ok []
    ∧ [("a.json", PyVal.list []), ("b.json", PyVal.list [])].map Prod.fst
      ≠ ([] : List (String × PyVal)).map Prod.fst := by
  refine ⟨rfl, rfl, rfl, by decide⟩

/-- C1 (amended): for a fixed pair of trees and a fixed configuration varying
only in `executor_type`, the three modes return identical outcome mappings
(even in the same order), provided every per-file comparison returns normally
and no per-file result is a falsy value other than `False` itself (for
example, formatted mode always yields `False` or a non-empty message).
Without that proviso the modes genuinely diverge, because the sequential
collection keeps every result that `is not False` while the parallel
collections keep only truthy results (see the counterexample). -/
theorem compare_trees_cross_mode_equivalence
    (rp cp : String) (refFiles compFiles : List String) (g : CompMap)
    (config : ComparisonConfig) (cpu : Option Nat) (res : String → PyVal)
    (hok : ∀ f ∈ _collect_files_to_compare refFiles config,
      treeSingle rp cp compFiles config g f = .ok (f, res f))
    (hfalsy : ∀ f ∈ _collect_files_to_compare refFiles config,
      (res f).truthy = decide (res f ≠ PyVal.pyFalse)) :
    compare_trees rp cp refFiles compFiles g
        { config with executor_type := .sequential } cpu
      = compare_trees rp cp refFiles compFiles g
        { config with executor_type := .thread } cpu
    ∧ compare_trees rp cp refFiles compFiles g
        { config with executor_type := .thread } cpu
      = compare_trees rp cp refFiles compFiles g
        { config with executor_type := .process } cpu := by
  have hfilter :
      ((_collect_files_to_compare refFiles config).map (fun f => (f, res f))).filter
          (fun r => decide (r.2 ≠ PyVal.pyFalse))
        = ((_collect_files_to_compare refFiles config).map (fun f => (f, res f))).filter
          (fun r => r.2.truthy) := by
    apply List.filter_congr
    intro x hx
    obtain ⟨f, hf, hfx⟩ := List.mem_map.mp hx
    rw [← hfx]
    exact (hfalsy f hf).symm
  have hseq : compare_trees rp cp refFiles compFiles g
      { config with executor_type := .sequential } cpu
      = .ok (((_collect_files_to_compare refFiles config).map (fun f => (f, res f))).filter
          (fun r => r.2.truthy)) := by
    rw [compare_trees_sequential_run rfl]
    rw [← hfilter]
    exact sequentialCollect_eq_filter hok
  have hthr : compare_trees rp cp refFiles compFiles g
      { config with executor_type := .thread } cpu
      = .ok (((_collect_files_to_compare refFiles config).map (fun f => (f, res f))).filter
          (fun r => r.2.truthy)) := by
    by_cases hlen : (_collect_files_to_compare refFiles config).length > 1
    · rw [@compare_trees_thread_run rp cp refFiles compFiles g
        { config with executor_type := .thread } cpu rfl hlen]
      exact threadCollect_eq_filter hok
    · rw [@compare_trees_small_run rp cp refFiles compFiles g
        { config with executor_type := .thread } cpu hlen]
      rw [← hfilter]
      exact sequentialCollect_eq_filter hok
  have hproc : compare_trees rp cp refFiles compFiles g
      { config with executor_type := .process } cpu
      = .ok (((_collect_files_to_compare refFiles config).map (fun f => (f, res f))).filter
          (fun r => r.2.truthy)) := by
    by_cases hlen : (_collect_files_to_compare refFiles config).length > 1
    · rw [@compare_trees_process_run rp cp refFiles compFiles g
        { config with executor_type := .process } cpu rfl hlen]
      exact congrArg Except.ok (processCollect_eq_filter hok)
    · rw [@compare_trees_small_run rp cp refFiles compFiles g
        { config with executor_type := .process } cpu hlen]
      rw [← hfilter]
      exact sequentialCollect_eq_filter hok
  exact ⟨hseq.trans hthr.symm, hthr.trans hproc.symm⟩

/-- A formatted-mode (non-raw) configuration over `globalCompsFix`. -/
def fmtConfigFix : ComparisonConfig :=
  { comparators := globalCompsFix, executor_type := .sequential }

/-- The per-file results of the cross-mode witness fixture: `b.txt` is
missing from the compared tree and `a.json` compares equal. -/
def witnessRes : String → PyVal :=
  fun f => if f = "b.txt" then .str (missingFileMsg "b.txt" "comp") else .pyFalse

theorem compare_trees_cross_mode_equivalence_witness :
    compare_trees "ref" "comp" ["a.json", "b.txt"] ["a.json"] globalCompsFix
        { fmtConfigFix with executor_type := .sequential } none
      = compare_trees "ref" "comp" ["a.json", "b.txt"] ["a.json"] globalCompsFix
        { fmtConfigFix with executor_type := .thread } none
    ∧ compare_trees "ref" "comp" ["a.json", "b.txt"] ["a.json"] globalCompsFix
        { fmtConfigFix with executor_type := .thread } none
      = compare_trees "ref" "comp" ["a.json", "b.txt"] ["a.json"] globalCompsFix
        { fmtConfigFix with executor_type := .process } none := by
  apply compare_trees_cross_mode_equivalence "ref" "comp" ["a.json", "b.txt"]
    ["a.json"] globalCompsFix fmtConfigFix none witnessRes
  · intro f hf
    have hcol : _collect_files_to_compare ["a.json", "b.txt"] fmtConfigFix
        = ["a.json", "b.txt"] := rfl
    rw [hcol] at hf
    rcases List.mem_cons.mp hf with rfl | hf
    · rfl
    · rw [List.mem_singleton.mp hf]
      rfl
  · intro f hf
    have hcol : _collect_files_to_compare ["a.json", "b.txt"] fmtConfigFix
        = ["a.json", "b.txt"] := rfl
    rw [hcol] at hf
    rcases List.mem_cons.mp hf with rfl | hf
    · rfl
    · rw [List.mem_singleton.mp hf]
      rfl

/-- C2 (counterexample): the claim fails as stated.  In sequential mode with
`return_raw_diffs` and two equal `.json` files, the per-file raw-diff result
is the empty list `[]`, which `is not False` (core.py line 685), so the
outcome mapping stores an entry whose value is an empty collection. -/
theorem compare_trees_empty_entry_counterexample :
    compare_trees "ref" "comp" ["a.json"] ["a.json"] globalCompsFix
        (rawConfigFix .sequential) none
      = .ok [("a.json", PyVal.list [])]
    ∧ ("a.json", PyVal.list []) ∈ [("a.json", PyVal.list [])]
    ∧ (PyVal.list []).truthy = false :=
  ⟨rfl, List.mem_singleton.mpr rfl, rfl⟩

/-- C2 (amended): the outcome mapping never contains an entry whose value is
the literal `False`; and when a parallel branch actually runs (non-sequential
executor and more than one file) it never contains any falsy value at all.
In sequential mode, however, a falsy result other than `False` itself (such
as an empty raw-diff collection, `None` or an empty string) IS stored,
because the sequential collection tests `result is not False` while the
parallel collections test truthiness. -/
theorem compare_trees_falsy_entry_invariant
    (rp cp : String) (refFiles compFiles : List String) (g : CompMap)
    (config : ComparisonConfig) (cpu : Option Nat) (m : List (String × PyVal))
    (h : compare_trees rp cp refFiles compFiles g config cpu = .ok m) :
    (∀ e ∈ m, e.2 ≠ PyVal.pyFalse)
    ∧ (config.executor_type ≠ ExecutorType.sequential →
        (_collect_files_to_compare refFiles config).length > 1 →
        ∀ e ∈ m, e.2.truthy = true) := by
  constructor
  · intro e he
    rcases compare_trees_cases h with hc | hc | ⟨w, hc⟩
    · exact (sequentialCollect_ok_mem hc e he).2
    · have ht := (threadCollect_ok_mem hc e he).2
      intro hfalse
      rw [hfalse] at ht
      cases ht
    · rw [← hc] at he
      have ht := (processCollect_mem e he).1
      intro hfalse
      rw [hfalse] at ht
      cases ht
  · intro het hlen e he
    cases hexec : config.executor_type with
    | sequential => exact absurd hexec het
    | thread =>
      rw [compare_trees_thread_run hexec hlen] at h
      exact (threadCollect_ok_mem h e he).2
    | process =>
      rw [compare_trees_process_run hexec hlen] at h
      cases h
      exact (processCollect_mem e he).1

theorem compare_trees_falsy_entry_invariant_witness :
    PyVal.str (missingFileMsg "a.txt" "comp") ≠ PyVal.pyFalse
    ∧ (PyVal.str (missingFileMsg "a.txt" "comp")).truthy = true := by
  have h := compare_trees_falsy_entry_invariant "ref" "comp" ["a.txt", "b.txt"] []
    globalCompsFix { fmtConfigFix with executor_type := .thread } none
    [("a.txt", .str (missingFileMsg "a.txt" "comp")),
     ("b.txt", .str (missingFileMsg "b.txt" "comp"))] rfl
  refine ⟨h.1 _ (List.mem_cons_self _ _), ?_⟩
  refine h.2 ?_ ?_ _ (List.mem_cons_self _ _)
  · intro hx
    cases hx
  · decide

theorem str_ne_pyFalse (s : String) : PyVal.str s ≠ PyVal.pyFalse :=
  fun h => PyVal.noConfusion h

/-- C6 (confirmed): for every file of the reference tree that survives the
include/exclude filter and is absent from the compared tree, the outcome
mapping of `compare_trees` (in any execution mode) maps exactly that relative
path to the reported-difference message
`The file '<relative_path>' does not exist in '<compared_root>'.`; and a path
that is not a reference-tree file — in particular one present only in the
compared tree — never appears in the mapping. -/
theorem missing_file_reported_asymmetric
    (rp cp : String) (refFiles compFiles : List String) (g : CompMap)
    (config : ComparisonConfig) (cpu : Option Nat) (m : List (String × PyVal))
    (p q : String)
    (hm : compare_trees rp cp refFiles compFiles g config cpu = .ok m) :
    (p ∈ _collect_files_to_compare refFiles config → p ∉ compFiles →
      assocLookup m p = some (.str (missingFileMsg p cp)))
    ∧ (q ∉ refFiles → assocLookup m q = none) := by
  constructor
  · intro hp hpc
    have hsingle : treeSingle rp cp compFiles config g p
        = .ok (p, .str (missingFileMsg p cp)) := compare_single_file_missing hpc
    have hall : ∀ e ∈ m, e.1 = p → e.2 = .str (missingFileMsg p cp) := by
      intro e he hep
      rcases compare_trees_cases hm with hc | hc | ⟨w, hc⟩
      · obtain ⟨⟨f, hf, hs⟩, _⟩ := sequentialCollect_ok_mem hc e he
        have hfp : f = p := by rw [← compare_single_file_fst hs, hep]
        rw [hfp] at hs
        have he2 := hsingle.symm.trans hs
        cases he2
        rfl
      · obtain ⟨⟨f, hf, hs⟩, _⟩ := threadCollect_ok_mem hc e he
        have hfp : f = p := by rw [← compare_single_file_fst hs, hep]
        rw [hfp] at hs
        have he2 := hsingle.symm.trans hs
        cases he2
        rfl
      · rw [← hc] at he
        obtain ⟨_, f, hf, hcase⟩ := processCollect_mem e he
        rcases hcase with hs | ⟨err, hs, herr⟩
        · have hfp : f = p := by rw [← compare_single_file_fst hs, hep]
          rw [hfp] at hs
          have he2 := hsingle.symm.trans hs
          cases he2
          rfl
        · have hfp : f = p := by rw [← hep, herr]
          rw [hfp] at hs
          rw [hsingle] at hs
          cases hs
    have hex : (p, PyVal.str (missingFileMsg p cp)) ∈ m := by
      rcases compare_trees_cases hm with hc | hc | ⟨w, hc⟩
      · exact sequentialCollect_ok_entry hc hp hsingle (str_ne_pyFalse _)
      · exact threadCollect_ok_entry hc hp hsingle (missingFileMsg_truthy p cp)
      · rw [← hc]
        exact processCollect_entry hp hsingle (missingFileMsg_truthy p cp)
    exact assocLookup_eq_some hex hall
  · intro hq
    apply assocLookup_eq_none
    intro e he
    have hkey : e.1 ∈ _collect_files_to_compare refFiles config := by
      rcases compare_trees_cases hm with hc | hc | ⟨w, hc⟩
      · obtain ⟨⟨f, hf, hs⟩, _⟩ := sequentialCollect_ok_mem hc e he
        rw [compare_single_file_fst hs]
        exact hf
      · obtain ⟨⟨f, hf, hs⟩, _⟩ := threadCollect_ok_mem hc e he
        rw [compare_single_file_fst hs]
        exact hf
      · rw [← hc] at he
        obtain ⟨_, f, hf, hcase⟩ := processCollect_mem e he
        rcases hcase with hs | ⟨err, hs, herr⟩
        · rw [compare_single_file_fst hs]
          exact hf
        · rw [herr]
          exact hf
    intro hcontra
    apply hq
    rw [← hcontra]
    exact (List.mem_filter.mp hkey).1

theorem missing_file_reported_asymmetric_witness :
    assocLookup [("b.txt", PyVal.str (missingFileMsg "b.txt" "comp"))] "b.txt"
      = some (.str (missingFileMsg "b.txt" "comp"))
    ∧ assocLookup [("b.txt", PyVal.str (missingFileMsg "b.txt" "comp"))] "zzz"
      = none := by
  have h := missing_file_reported_asymmetric "ref" "comp" ["b.txt"] ["zzz"]
    globalCompsFix fmtConfigFix none
    [("b.txt", .str (missingFileMsg "b.txt" "comp"))] "b.txt" "zzz" rfl
  refine ⟨h.1 ?_ ?_, h.2 ?_⟩
  · rw [show _collect_files_to_compare ["b.txt"] fmtConfigFix = ["b.txt"] from rfl]
    exact List.mem_singleton.mpr rfl
  · decide
  · decide

/-- The resolution state in which the `comparator` override of
`pick_comparator` finds nothing: no override, a comparator object that is not
a `BaseComparator` instance, or a class-name string matching no comparator of
the active mapping. -/
def overrideFindsNothing (ov : Option CompOverride) (comps : CompMap) : Prop :=
  match ov with
  | none => True
  | some (.inst c) => c.isBase = false
  | some (.name s) =>
    (comps.map (fun e => e.2)).find? (fun i => i.className = s) = none

/-- The resolution state in which the file-suffix lookup of `pick_comparator`
finds nothing. -/
def suffixFindsNothing (sfx : Option String) (comps : CompMap) : Prop :=
  match sfx with
  | none => True
  | some s => comps.lookup (some s) = none

/-- C3 (confirmed): `pick_comparator` resolves in this order — an explicit
`BaseComparator` instance override wins; else a string override is matched by
class name against the active comparator mapping (first match in insertion
order); else the entry for the file's suffix; else the default (`None`-keyed)
comparator of the global registry; and when none of these applies a
`RuntimeError` is raised (`Except.error`, distinct from any per-file
difference value) rather than a difference being reported. -/
theorem pick_comparator_resolution_order
    (ov : Option CompOverride) (sfx : Option String) (comps glob : CompMap) :
    (∀ c, ov = some (.inst c) → c.isBase = true →
      pick_comparator ov sfx (some comps) glob = .ok c)
    ∧ (∀ s c, ov = some (.name s) →
        (comps.map (fun e => e.2)).find? (fun i => i.className = s) = some c →
        pick_comparator ov sfx (some comps) glob = .ok c)
    ∧ (∀ s c, overrideFindsNothing ov comps → sfx = some s →
        comps.lookup (some s) = some c →
        pick_comparator ov sfx (some comps) glob = .ok c)
    ∧ (∀ c, overrideFindsNothing ov comps → suffixFindsNothing sfx comps →
        glob.lookup none = some c →
        pick_comparator ov sfx (some comps) glob = .ok c)
    ∧ (overrideFindsNothing ov comps → suffixFindsNothing sfx comps →
        glob.lookup none = none →
        pick_comparator ov sfx (some comps) glob
          = .error "No default comparator available") := by
  refine ⟨?_, ?_, ?_, ?_, ?_⟩
  · intro c hov hbase
    subst hov
    simp [pick_comparator, hbase]
  · intro s c hov hfind
    subst hov
    simp [pick_comparator, pick_comparator.pick_comparator_after_instance, hfind]
  · intro s c hnada hsfx hlook
    subst hsfx
    match ov, hnada with
    | none, _ =>
      simp [pick_comparator, pick_comparator.pick_comparator_after_instance, hlook]
    | some (.inst c2), hnada =>
      have hbase : c2.isBase = false := hnada
      simp [pick_comparator, pick_comparator.pick_comparator_after_instance, hbase, hlook]
    | some (.name s2), hnada =>
      have hfind : (comps.map (fun e => e.2)).find? (fun i => i.className = s2) = none :=
        hnada
      simp [pick_comparator, pick_comparator.pick_comparator_after_instance, hfind, hlook]
  · intro c hnada hsfx hlook
    match ov, hnada with
    | none, _ =>
      match sfx, hsfx with
      | none, _ =>
        simp [pick_comparator, pick_comparator.pick_comparator_after_instance, hlook]
      | some s, hsfx =>
        have hl : comps.lookup (some s) = none := hsfx
        simp [pick_comparator, pick_comparator.pick_comparator_after_instance, hl, hlook]
    | some (.inst c2), hnada =>
      have hbase : c2.isBase = false := hnada
      match sfx, hsfx with
      | none, _ =>
        simp [pick_comparator, pick_comparator.pick_comparator_after_instance, hbase, hlook]
      | some s, hsfx =>
        have hl : comps.lookup (some s) = none := hsfx
        simp [pick_comparator, pick_comparator.pick_comparator_after_instance, hbase, hl,
          hlook]
    | some (.name s2), hnada =>
      have hfind : (comps.map (fun e => e.2)).find? (fun i => i.className = s2) = none :=
        hnada
      match sfx, hsfx with
      | none, _ =>
        simp [pick_comparator, pick_comparator.pick_comparator_after_instance, hfind, hlook]
      | some s, hsfx =>
        have hl : comps.lookup (some s) = none := hsfx
        simp [pick_comparator, pick_comparator.pick_comparator_after_instance, hfind, hl,
          hlook]
  · intro hnada hsfx hlook
    match ov, hnada with
    | none, _ =>
      match sfx, hsfx with
      | none, _ =>
        simp [pick_comparator, pick_comparator.pick_comparator_after_instance, hlook]
      | some s, hsfx =>
        have hl : comps.lookup (some s) = none := hsfx
        simp [pick_comparator, pick_comparator.pick_comparator_after_instance, hl, hlook]
    | some (.inst c2), hnada =>
      have hbase : c2.isBase = false := hnada
      match sfx, hsfx with
      | none, _ =>
        simp [pick_comparator, pick_comparator.pick_comparator_after_instance, hbase, hlook]
      | some s, hsfx =>
        have hl : comps.lookup (some s) = none := hsfx
        simp [pick_comparator, pick_comparator.pick_comparator_after_instance, hbase, hl,
          hlook]
    | some (.name s2), hnada =>
      have hfind : (comps.map (fun e => e.2)).find? (fun i => i.className = s2) = none :=
        hnada
      match sfx, hsfx with
      | none, _ =>
        simp [pick_comparator, pick_comparator.pick_comparator_after_instance, hfind, hlook]
      | some s, hsfx =>
        have hl : comps.lookup (some s) = none := hsfx
        simp [pick_comparator, pick_comparator.pick_comparator_after_instance, hfind, hl,
          hlook]

theorem pick_comparator_resolution_order_witness :
    pick_comparator (some (.name "JsonComparator")) (some ".txt")
        (some globalCompsFix) globalCompsFix
      = .ok jsonCmpFix
    ∧ pick_comparator none (some ".txt") (some globalCompsFix) []
      = .error "No default comparator available" := by
  constructor
  · exact (pick_comparator_resolution_order (some (.name "JsonComparator"))
      (some ".txt") globalCompsFix globalCompsFix).2.1 "JsonComparator" jsonCmpFix rfl rfl
  · exact (pick_comparator_resolution_order none (some ".txt")
      globalCompsFix []).2.2.2.2 trivial rfl rfl

/-- The specific-args part of `ComparisonConfig.__attrs_post_init__` as a
configuration builder: stores the post-pop `specific_args` and the built
`pattern_specific_args`. -/
def config_of_specific_args (d : List (String × FileArgs)) : ComparisonConfig :=
  { specific_args := (specific_args_post_init d).1,
    pattern_specific_args := (specific_args_post_init d).2 }

/-- C4 (confirmed): override arguments are resolved by consulting the
exact-path entry of `specific_args` first — it wins even when pattern groups
also match — and only when no exact-path entry exists are the pattern groups
scanned in declaration order, the first-declared group with a matching
pattern supplying the arguments (with its `patterns` key already popped),
even when later groups' patterns also match the path. -/
theorem specific_args_precedence
    (d pre post : List (String × FileArgs)) (gname : String) (v : FileArgs)
    (relpath : String) :
    (∀ w, assocLookup (specific_args_post_init d).1 relpath = some w →
      resolve_specific_args (config_of_specific_args d) relpath = w)
    ∧ (d = pre ++ (gname, v) :: post →
      assocLookup (specific_args_post_init d).1 relpath = none →
      (∃ ps, v.patterns = some ps ∧ ∃ p ∈ ps, p relpath = true) →
      (∀ e ∈ pre, ∀ ps, e.2.patterns = some ps → ∀ p ∈ ps, p relpath = false) →
      resolve_specific_args (config_of_specific_args d) relpath
        = { v with patterns := none }) := by
  constructor
  · intro w hw
    unfold resolve_specific_args
    rw [show (config_of_specific_args d).specific_args
        = (specific_args_post_init d).1 from rfl, hw]
  · intro hd hexact hsome hpre
    obtain ⟨ps, hps, hmatch⟩ := hsome
    unfold resolve_specific_args
    rw [show (config_of_specific_args d).specific_args
        = (specific_args_post_init d).1 from rfl, hexact,
      show (config_of_specific_args d).pattern_specific_args
        = (specific_args_post_init d).2 from rfl]
    subst hd
    rw [specific_args_post_init_snd_append]
    have hsnd : (specific_args_post_init ((gname, v) :: post)).2
        = ps.map (fun p => (p, { v with patterns := none }))
          ++ (specific_args_post_init post).2 := by
      simp only [specific_args_post_init, hps]
    rw [hsnd]
    have hnone : (specific_args_post_init pre).2.find? (fun pv => pv.1 relpath)
        = none := by
      apply List.find?_eq_none.mpr
      intro pv hpv
      obtain ⟨e, he, ps2, hps2, hpmem, _⟩ := specific_args_post_init_snd_mem pre pv hpv
      have hfalse := hpre e he ps2 hps2 pv.1 hpmem
      simp only [hfalse, Bool.false_eq_true, not_false_iff]
    obtain ⟨p0, hp0⟩ := find_first_matching_pattern hmatch
    rw [List.find?_append, hnone, Option.none_or, List.find?_append, hp0]
    rfl

/-- An exact-path specific-args entry used by the C4 witness. -/
def exactArgsFix : FileArgs := { args := some [PyVal.int 1] }

/-- A first pattern group matching only `x.yaml`. -/
def groupAArgsFix : FileArgs :=
  { patterns := some [fun s => s = "x.yaml"],
    kwargs := { diff_kwargs := [("tolerance", PyVal.int 0)] } }

/-- A second pattern group matching every path. -/
def groupBArgsFix : FileArgs :=
  { patterns := some [fun _ => true], args := some [PyVal.int 2] }

/-- A caller-supplied `specific_args` dict with an exact-path entry and two
pattern groups. -/
def specificArgsFix : List (String × FileArgs) :=
  [("file.json", exactArgsFix), ("groupA", groupAArgsFix), ("groupB", groupBArgsFix)]

theorem specific_args_precedence_witness :
    resolve_specific_args (config_of_specific_args specificArgsFix) "file.json"
      = exactArgsFix
    ∧ resolve_specific_args (config_of_specific_args specificArgsFix) "x.yaml"
      = { groupAArgsFix with patterns := none } := by
  constructor
  · exact (specific_args_precedence specificArgsFix [] [] "g" exactArgsFix
      "file.json").1 exactArgsFix rfl
  · apply (specific_args_precedence specificArgsFix [("file.json", exactArgsFix)]
      [("groupB", groupBArgsFix)] "groupA" groupAArgsFix "x.yaml").2 rfl rfl
    · exact ⟨[fun s => s = "x.yaml"], rfl, ⟨fun s => s = "x.yaml",
        List.mem_singleton.mpr rfl, by decide⟩⟩
    · intro e he ps hps p hp
      rcases List.mem_singleton.mp he with rfl
      cases hps

/-- C5 (counterexample): the claim fails as stated.  With five files and two
workers the chunk size is `max(1, 5 // 2) = 2` and the slicing loop produces
three chunks `[[0, 1], [2, 3], [4]]`: the remainder is not folded into the
last chunk but forms an extra chunk, so the chunk count exceeds the worker
count and differs from the folded partition `[[0, 1], [2, 3, 4]]`. -/
theorem split_into_chunks_counterexample :
    _split_into_chunks [0, 1, 2, 3, 4] 2 = [[0, 1], [2, 3], [4]]
    ∧ (_split_into_chunks [0, 1, 2, 3, 4] 2).length = 3
    ∧ _split_into_chunks [0, 1, 2, 3, 4] 2 ≠ [[0, 1], [2, 3, 4]] :=
  ⟨rfl, rfl, by decide⟩

/-- C5 (amended): in process mode, for every non-empty list of files and
every worker count, the files are partitioned into contiguous chunks whose
concatenation equals the input list and each chunk holds at least one file;
but when the worker count does not evenly divide the file count the leftover
files form an extra, shorter trailing chunk (the chunk count may exceed the
worker count) instead of being folded into the last chunk. -/
theorem split_into_chunks_partition {α : Type} (items : List α) (num_chunks : Int)
    (h : items ≠ []) :
    (_split_into_chunks items num_chunks).flatten = items
    ∧ ∀ c ∈ _split_into_chunks items num_chunks, c ≠ [] :=
  ⟨split_into_chunks_flatten items num_chunks,
    split_into_chunks_ne_nil items num_chunks h⟩

theorem split_into_chunks_partition_witness :
    (_split_into_chunks [0, 1, 2, 3, 4] (2 : Int)).flatten = [0, 1, 2, 3, 4] :=
  (split_into_chunks_partition [0, 1, 2, 3, 4] 2 (by decide)).1

theorem exceptionReason_length (exc : PyExc) : (exceptionReason exc).length ≠ 0 := by
  unfold exceptionReason
  simp only [String.length_append]
  have h19 : ("Exception raised: (").length = 19 := by decide
  omega

/-- C7 (confirmed): an exception raised anywhere inside a strategy call is
suppressed by `compare_files` and converted into a truthy difference message
that ends with `Exception raised: (<type name>) <newline-joined stringified
args>` (with the `UNKNOWN ERROR` placeholder when stringifying the args
itself fails); and since per-file strategy exceptions never escape, the
comparison of every other file runs to completion: whenever each per-file
unit of work returns normally (which `compare_files` guarantees as long as
comparator resolution succeeds), `compare_trees` returns a mapping instead of
propagating an exception. -/
theorem compare_files_suppresses_exceptions :
    (∀ (ref comp : String) (c : Comparator) (args : List PyVal) (raw : Bool)
        (kw : StageKwargs) (exc : PyExc),
      c.run ref comp args raw kw = .error exc →
      ∃ argsUsed kwargsUsed : String,
        compare_files ref comp c args raw kw
          = .str ("The files '" ++ ref ++ "' and '" ++ comp ++ "' are different"
              ++ ":\n" ++ argsUsed ++ kwargsUsed
              ++ ("Exception raised: (" ++ exc.typeName ++ ") "
                ++ (if exc.strFails then unknownErrorText
                    else String.intercalate "\n" exc.excArgs))))
    ∧ (∀ (rp cp : String) (refFiles compFiles : List String) (g : CompMap)
        (config : ComparisonConfig) (cpu : Option Nat),
      (∀ f ∈ _collect_files_to_compare refFiles config,
        (treeSingle rp cp compFiles config g f).isOk = true) →
      (compare_trees rp cp refFiles compFiles g config cpu).isOk = true) := by
  constructor
  · intro ref comp c args raw kw exc hrun
    obtain ⟨a, k, hak⟩ := diff_msg_formatter_reason_str (exceptionReason_length exc)
      ref comp args kw.diff_kwargs kw.load_kwargs kw.format_data_kwargs
      kw.filter_kwargs kw.format_diff_kwargs kw.sort_kwargs kw.concat_kwargs
      kw.report_kwargs
    refine ⟨a, k, ?_⟩
    unfold compare_files
    rw [hrun]
    exact hak
  · intro rp cp refFiles compFiles g config cpu hok
    by_cases hlen : (_collect_files_to_compare refFiles config).length > 1
    · cases het : config.executor_type with
      | sequential =>
        rw [compare_trees_sequential_run het]
        exact sequentialCollect_isOk hok
      | thread =>
        rw [compare_trees_thread_run het hlen]
        exact threadCollect_isOk hok
      | process =>
        rw [compare_trees_process_run het hlen]
        rfl
    · rw [compare_trees_small_run hlen]
      exact sequentialCollect_isOk hok

/-- A registry whose `.json` comparator always raises. -/
def raisingCompsFix : CompMap := [(none, defaultCmpFix), (some ".json", raisingCmpFix)]

/-- A sequential configuration over `raisingCompsFix`. -/
def raisingConfigFix : ComparisonConfig :=
  { comparators := raisingCompsFix, executor_type := .sequential }

theorem compare_files_suppresses_exceptions_witness :
    (∃ argsUsed kwargsUsed : String,
      compare_files "r.json" "c.json" raisingCmpFix [] false {}
        = .str ("The files '" ++ "r.json" ++ "' and '" ++ "c.json"
            ++ "' are different" ++ ":\n" ++ argsUsed ++ kwargsUsed
            ++ ("Exception raised: (" ++ "ValueError" ++ ") "
              ++ String.intercalate "\n" ["boom"])))
    ∧ (compare_trees "ref" "comp" ["a.json", "b.json"] ["a.json", "b.json"]
        raisingCompsFix raisingConfigFix none).isOk = true := by
  constructor
  · exact compare_files_suppresses_exceptions.1 "r.json" "c.json" raisingCmpFix []
      false {} { typeName := "ValueError", excArgs := ["boom"], strFails := false } rfl
  · apply compare_files_suppresses_exceptions.2
    intro f hf
    rw [show _collect_files_to_compare ["a.json", "b.json"] raisingConfigFix
        = ["a.json", "b.json"] from rfl] at hf
    rcases List.mem_cons.mp hf with rfl | hf
    · rfl
    · rw [List.mem_singleton.mp hf]
      rfl

/-- C8 (confirmed): `assert_equal_trees` returns `True` when the outcome
mapping is empty, and otherwise raises a single `AssertionError` whose
message joins the per-file difference messages with a triple-newline
separator after sorting the entries by relative path (the sorted list is a
key-ascending permutation of the mapping). -/
theorem assert_equal_trees_aggregation
    (rp cp : String) (refFiles compFiles : List String) (g : CompMap)
    (config : ComparisonConfig) (cpu : Option Nat) (m : List (String × PyVal))
    (hm : compare_trees rp cp refFiles compFiles g config cpu = .ok m) :
    (m = [] → assert_equal_trees rp cp refFiles compFiles g config cpu = .ok true)
    ∧ (m ≠ [] →
      assert_equal_trees rp cp refFiles compFiles g config cpu
        = .error ("AssertionError",
            String.intercalate "\n\n\n" ((sortByKey m).map (fun i => pyStr i.2)))
      ∧ (sortByKey m).Perm m
      ∧ (sortByKey m).Pairwise (fun a b => a.1 ≤ b.1)) := by
  constructor
  · intro he
    subst he
    unfold assert_equal_trees
    rw [hm]
    rfl
  · intro hne
    refine ⟨?_, sortByKey_perm m, sortByKey_sorted m⟩
    unfold assert_equal_trees
    rw [hm]
    have hlen : (sortByKey m).length > 0 := by
      rw [sortByKey_length]
      cases m with
      | nil => exact absurd rfl hne
      | cons a l => simp
    simp only [hlen, if_pos]

theorem assert_equal_trees_aggregation_witness :
    assert_equal_trees "ref" "comp" [] [] globalCompsFix fmtConfigFix none = .ok true
    ∧ assert_equal_trees "ref" "comp" ["b.txt"] [] globalCompsFix fmtConfigFix none
      = .error ("AssertionError", String.intercalate "\n\n\n"
          ((sortByKey [("b.txt", .str (missingFileMsg "b.txt" "comp"))]).map
            (fun i => pyStr i.2))) := by
  constructor
  · exact (assert_equal_trees_aggregation "ref" "comp" [] [] globalCompsFix
      fmtConfigFix none [] rfl).1 rfl
  · exact ((assert_equal_trees_aggregation "ref" "comp" ["b.txt"] [] globalCompsFix
      fmtConfigFix none [("b.txt", .str (missingFileMsg "b.txt" "comp"))] rfl).2
      (List.cons_ne_nil _ _)).1

/-- C9 (confirmed): for each of the seven named stage-kwargs buckets of
`BaseComparator.__call__`, a bucket that is not supplied at call time
(`None`) falls back to the per-instance default configured at construction
(`default_<stage>_kwargs`), while a supplied bucket — in particular an
explicitly empty dict — counts as provided and overrides the default, so the
stage runs with no kwargs.  The `**diff_kwargs` passthrough is the one stage
without a named bucket: in Python an explicitly empty set of extra keyword
arguments is indistinguishable from an absent one, and the code tests
`if not diff_kwargs`, so the diff default applies exactly when the
passthrough is empty. -/
theorem call_kwargs_default_resolution (self : ComparatorDefaults) (c : StageKwargs) :
    ((c.load_kwargs = none →
        (base_comparator_call_kwargs self c).load_kwargs = self.default_load_kwargs)
      ∧ ∀ d, c.load_kwargs = some d →
        (base_comparator_call_kwargs self c).load_kwargs = d)
    ∧ ((c.format_data_kwargs = none →
        (base_comparator_call_kwargs self c).format_data_kwargs
          = self.default_format_data_kwargs)
      ∧ ∀ d, c.format_data_kwargs = some d →
        (base_comparator_call_kwargs self c).format_data_kwargs = d)
    ∧ ((c.filter_kwargs = none →
        (base_comparator_call_kwargs self c).filter_kwargs = self.default_filter_kwargs)
      ∧ ∀ d, c.filter_kwargs = some d →
        (base_comparator_call_kwargs self c).filter_kwargs = d)
    ∧ ((c.format_diff_kwargs = none →
        (base_comparator_call_kwargs self c).format_diff_kwargs
          = self.default_format_diff_kwargs)
      ∧ ∀ d, c.format_diff_kwargs = some d →
        (base_comparator_call_kwargs self c).format_diff_kwargs = d)
    ∧ ((c.sort_kwargs = none →
        (base_comparator_call_kwargs self c).sort_kwargs = self.default_sort_kwargs)
      ∧ ∀ d, c.sort_kwargs = some d →
        (base_comparator_call_kwargs self c).sort_kwargs = d)
    ∧ ((c.concat_kwargs = none →
        (base_comparator_call_kwargs self c).concat_kwargs = self.default_concat_kwargs)
      ∧ ∀ d, c.concat_kwargs = some d →
        (base_comparator_call_kwargs self c).concat_kwargs = d)
    ∧ ((c.report_kwargs = none →
        (base_comparator_call_kwargs self c).report_kwargs = self.default_report_kwargs)
      ∧ ∀ d, c.report_kwargs = some d →
        (base_comparator_call_kwargs self c).report_kwargs = d)
    ∧ ((c.diff_kwargs = [] →
        (base_comparator_call_kwargs self c).diff_kwargs = self.default_diff_kwargs)
      ∧ (c.diff_kwargs ≠ [] →
        (base_comparator_call_kwargs self c).diff_kwargs = c.diff_kwargs)) := by
  refine ⟨⟨?_, ?_⟩, ⟨?_, ?_⟩, ⟨?_, ?_⟩, ⟨?_, ?_⟩, ⟨?_, ?_⟩, ⟨?_, ?_⟩, ⟨?_, ?_⟩,
    ⟨?_, ?_⟩⟩ <;>
    first
      | (intro h; simp [base_comparator_call_kwargs, h])
      | (intro d h; simp [base_comparator_call_kwargs, h])

/-- Per-instance defaults used by the C9 witness. -/
def defaultsFix : ComparatorDefaults :=
  { default_load_kwargs := [("encoding", PyVal.str "utf-8")],
    default_sort_kwargs := [("reverse", PyVal.pyTrue)] }

theorem call_kwargs_default_resolution_witness :
    (base_comparator_call_kwargs defaultsFix { load_kwargs := some [] }).load_kwargs = []
    ∧ (base_comparator_call_kwargs defaultsFix { load_kwargs := some [] }).sort_kwargs
      = [("reverse", PyVal.pyTrue)] := by
  constructor
  · exact (call_kwargs_default_resolution defaultsFix { load_kwargs := some [] }).1.2
      [] rfl
  · exact (call_kwargs_default_resolution defaultsFix
      { load_kwargs := some [] }).2.2.2.2.1.1 rfl

/-- C10 (confirmed): building the specific-args of a `ComparisonConfig` pops
the `patterns` key from the caller-supplied nested group dicts in place (the
post-state of the caller's mapping is the first component returned by
`specific_args_post_init`): afterwards no entry of the caller's mapping
carries a pattern list; a configuration built or evolved from that same
mapping produces an empty `pattern_specific_args`; and the former group
entry now resolves as an exact-path entry keyed by the group name. -/
theorem specific_args_post_init_mutation (d : List (String × FileArgs)) :
    (∀ e ∈ (specific_args_post_init d).1, e.2.patterns = none)
    ∧ specific_args_post_init (specific_args_post_init d).1
      = ((specific_args_post_init d).1, [])
    ∧ (∀ gname v, assocLookup d gname = some v → v.patterns.isSome →
        assocLookup (specific_args_post_init d).1 gname
          = some { v with patterns := none }
        ∧ resolve_specific_args
            (config_of_specific_args (specific_args_post_init d).1) gname
          = { v with patterns := none }) := by
  refine ⟨specific_args_post_init_all_none d,
    specific_args_post_init_idem _ (specific_args_post_init_all_none d), ?_⟩
  intro gname v hl hsome
  have hmv : assocLookup (d.map (fun e => (e.1, { e.2 with patterns := none }))) gname
      = (assocLookup d gname).map (fun w => { w with patterns := none }) :=
    @assocLookup_map_value FileArgs FileArgs d gname
      (fun w => { w with patterns := none })
  have hmap : assocLookup (specific_args_post_init d).1 gname
      = some { v with patterns := none } := by
    rw [specific_args_post_init_fst, hmv, hl]
    rfl
  refine ⟨hmap, ?_⟩
  unfold resolve_specific_args
  rw [show (config_of_specific_args (specific_args_post_init d).1).specific_args
      = (specific_args_post_init (specific_args_post_init d).1).1 from rfl]
  have h1 : (specific_args_post_init (specific_args_post_init d).1).1
      = (specific_args_post_init d).1 := by
    rw [specific_args_post_init_idem _ (specific_args_post_init_all_none d)]
  rw [h1, hmap]

theorem specific_args_post_init_mutation_witness :
    assocLookup (specific_args_post_init specificArgsFix).1 "groupA"
      = some { groupAArgsFix with patterns := none }
    ∧ resolve_specific_args
        (config_of_specific_args (specific_args_post_init specificArgsFix).1) "groupA"
      = { groupAArgsFix with patterns := none } :=
  (specific_args_post_init_mutation specificArgsFix).2.2 "groupA" groupAArgsFix rfl rfl
